import Mathlib

/-!
Verification development for the lds-imgx batch image pipeline
(src/index.ts, src/cli.ts).

The TypeScript source is shallowly embedded: all asynchronous filesystem
and codec interaction is modelled through an abstract, static `World`
(stat results, image metadata, codec outcomes, directory creation
failures), and the pipeline becomes a pure function from a `World` and an
options record to a result value together with a trace of write effects.
Tasks that the source runs under a p-limit pool are modelled sequentially
in enumeration order; all properties proved below are order-insensitive
(counts, membership, per-item outcomes).
-/

/-- Output format tags, mirroring the `"webp" | "avif" | "jpeg"` union. -/
inductive Fmt
  | webp
  | avif
  | jpeg
deriving DecidableEq, Repr

/-- The file-extension string of a format tag. -/
def Fmt.str : Fmt → String
  | .webp => "webp"
  | .avif => "avif"
  | .jpeg => "jpeg"

/-- The `sharpCacheFiles?: number | false` option. -/
inductive SharpCacheSetting
  | files (n : Nat)
  | disabled
deriving DecidableEq, Repr

/-- The `ImgxOptions` record of src/index.ts. Optional fields are `Option`;
`none` models an absent (`undefined`) field. -/
structure ImgxOptions where
  input : String
  output : String
  width : Option Nat := none
  height : Option Nat := none
  sizes : Option (List Nat) := none
  withoutEnlargement : Option Bool := none
  formats : Option (List Fmt) := none
  suffix : Option String := none
  quality : Option Nat := none
  effort : Option Nat := none
  concurrency : Option Nat := none
  sharpCacheFiles : Option SharpCacheSetting := none
  pattern : Option (List String) := none
  stripMetadata : Option Bool := none
  verbose : Option Bool := none
  quiet : Option Bool := none
  force : Option Bool := none
  dryRun : Option Bool := none
deriving Repr

/-- A `CacheEntry` as persisted in `.imgx-cache.json`. Timestamps are
millisecond values, modelled as `Nat`. The `settingsHash` field stores a
settings fingerprint (see `generateSettingsHash`). -/
structure CacheEntry where
  inputPath : String
  inputMtime : Nat
  settingsHash : String
  outputFiles : List String
  timestamp : Nat
deriving DecidableEq, Repr

/-- The in-memory cache: a JS object keyed by normalized input path,
modelled as an association list (first binding wins on lookup). -/
abbrev Cache := List (String × CacheEntry)

/-- JS object property read `m[k]`: first binding for the key. -/
def lookupA {α : Type} : List (String × α) → String → Option α
  | [], _ => none
  | (k2, v) :: rest, k => if k2 = k then some v else lookupA rest k

/-- JS object property write `m[k] = v`: replace the existing binding in
place, else append a new one. -/
def setA {α : Type} : List (String × α) → String → α → List (String × α)
  | [], k, v => [(k, v)]
  | (k2, v2) :: rest, k, v =>
    if k2 = k then (k, v) :: rest else (k2, v2) :: setA rest k v

/-- What `fs.stat` and `sharp(path).metadata()` report for a file that
exists: its mtime (ms), its byte size, and, when sharp can read it as an
image, its (width, height) metadata. -/
structure FileInfo where
  mtimeMs : Nat
  byteSize : Nat
  imageMeta : Option (Nat × Nat)
deriving DecidableEq, Repr

/-- Result of one codec (sharp transform-to-buffer) invocation: the output
image's reported width/height metadata (0 models an absent field) and the
encoded byte length. -/
structure CodecOut where
  width : Nat
  height : Nat
  bytes : Nat
deriving DecidableEq, Repr

/-- The static world a run executes against: the globby enumeration, the
filesystem (`fsFiles p = none` means `fs.stat p` throws), existing
directories, the codec behaviour per (input, size, format), which `mkdir`
calls fail, the persisted cache file contents (`none` = missing/corrupt),
Node's `path.relative`, the working directory, and the clock. -/
structure World where
  globFiles : List String
  fsFiles : String → Option FileInfo
  dirExists : String → Bool
  codecFn : String → Nat → Fmt → Except String CodecOut
  mkdirFail : String → Option String
  storedCache : Option Cache
  relative : String → String → String
  cwd : String
  now : Nat

/-- `fs.stat(p).mtime.getTime()`, or `none` when stat throws. -/
def statMs (w : World) (p : String) : Option Nat :=
  (w.fsFiles p).map FileInfo.mtimeMs

/-- The sharp transform invocation on input `abs`: reading a file that does
not exist throws, otherwise the world decides success or an error
message. -/
def codec (w : World) (abs : String) (size : Nat) (fmt : Fmt) :
    Except String CodecOut :=
  match w.fsFiles abs with
  | none => .error ("Input file is missing: " ++ abs)
  | some _ => w.codecFn abs size fmt

/-- The result record of `shouldSkipFile`. -/
structure SkipResult where
  skip : Bool
  reason : Option String
deriving DecidableEq, Repr

/-- The output-stat loop of `shouldSkipFile` (lines 287-298): stat every
expected output, accumulating the maximum mtime starting from 0; `none`
when any output is missing (`allOutputsExist = false`). -/
def newestMtime (w : World) : List String → Option Nat
  | [] => some 0
  | f :: rest =>
    match statMs w f with
    | none => none
    | some m =>
      match newestMtime w rest with
      | none => none
      | some n => some (Nat.max m n)

/-- Whether the cache holds a record under `key` whose fingerprint equals
the current one (the `cacheEntry && cacheEntry.settingsHash === settingsHash`
test). -/
def cacheFresh (cache : Cache) (key settingsHash : String) : Bool :=
  match lookupA cache key with
  | some e => e.settingsHash == settingsHash
  | none => false

/-- `shouldSkipFile` (src/index.ts lines 268-316). The `try`/`catch`
wrapping stat failures is modelled by the `Option` results of `statMs` and
`newestMtime`. -/
def shouldSkipFile (w : World) (inputPath : String) (outputFiles : List String)
    (settingsHash : String) (force : Bool) (cache : Cache) : SkipResult :=
  if force then ⟨false, none⟩
  else
    match statMs w inputPath with
    | none => ⟨false, none⟩
    | some inputMtime =>
      match newestMtime w outputFiles with
      | none => ⟨false, none⟩
      | some newest =>
        if newest > inputMtime then
          if cacheFresh cache (w.relative w.cwd inputPath) settingsHash then
            ⟨true, some "cached (up to date)"⟩
          else
            ⟨true, some "output newer than input"⟩
        else ⟨false, none⟩

/-- A missing output makes the stat loop report `none`. -/
theorem newestMtime_none_of_missing (w : World) (outs : List String)
    (h : ∃ f ∈ outs, statMs w f = none) : newestMtime w outs = none := by
  induction outs with
  | nil => rcases h with ⟨f, hf, _⟩; cases hf
  | cons a rest ih =>
    rcases h with ⟨f, hf, hnone⟩
    rcases List.mem_cons.mp hf with h1 | h2
    · subst h1
      simp [newestMtime, hnone]
    · unfold newestMtime
      rcases ha : statMs w a with _ | m
      · rfl
      · rw [ih ⟨f, h2, hnone⟩]

/-- Claim C1: with `force` false, a statable input, every expected output
present, and the maximum output mtime strictly above the input's mtime,
`shouldSkipFile` skips; the reason is "cached (up to date)" exactly when
the cache holds a record under the normalized key (path relative to the
working directory) with the current fingerprint, and "output newer than
input" in every other case. -/
theorem shouldSkipFile_skips_when_outputs_newer (w : World) (ip : String)
    (outs : List String) (settingsHash : String) (cache : Cache) (im nm : Nat)
    (hstat : statMs w ip = some im)
    (hex : ∀ f ∈ outs, (statMs w f).isSome)
    (hnew : newestMtime w outs = some nm)
    (hgt : nm > im) :
    shouldSkipFile w ip outs settingsHash false cache =
      ⟨true, some (if cacheFresh cache (w.relative w.cwd ip) settingsHash
                   then "cached (up to date)"
                   else "output newer than input")⟩ := by
  unfold shouldSkipFile
  rw [hstat, hnew]
  simp only [if_neg (Bool.false_ne_true), hgt, if_pos]
  split <;> rfl

/-- Claim C2: `shouldSkipFile` refuses to skip whenever `force` is set, the
input cannot be statted, some expected output is missing, or the maximum
output mtime is not strictly greater than the input mtime. -/
theorem shouldSkipFile_never_skips_when_stale (w : World) (ip : String)
    (outs : List String) (settingsHash : String) (force : Bool) (cache : Cache)
    (h : force = true ∨ statMs w ip = none ∨ (∃ f ∈ outs, statMs w f = none) ∨
         ∃ im nm, statMs w ip = some im ∧ newestMtime w outs = some nm ∧
           ¬ nm > im) :
    (shouldSkipFile w ip outs settingsHash force cache).skip = false := by
  unfold shouldSkipFile
  rcases h with hf | hstat | hmiss | ⟨im, nm, hstat, hnew, hle⟩
  · simp [hf]
  · rcases hforce : force with _ | _
    · simp [hstat]
    · simp
  · rcases hforce : force with _ | _
    · rcases hstat : statMs w ip with _ | m
      · simp
      · rw [newestMtime_none_of_missing w outs hmiss]
        simp
    · simp
  · rcases hforce : force with _ | _
    · rw [hstat, hnew]
      simp [hle]
    · simp

/-! ## Settings fingerprint (generateSettingsHash, src/index.ts lines 172-188)

The source builds a fixed-key-order object of the nine cache-relevant
fields, serializes it with `JSON.stringify` (keys with `undefined` values
are omitted), and returns the SHA-1 hex digest of that text. The digest is
modelled by the canonical JSON text it is computed from: SHA-1 is treated
as injective, so identifying the digest with its preimage preserves every
equality and inequality of fingerprints. -/

/-- JSON string escaping for the characters the claims can exercise
(backslash and double quote; other control-character escapes are not
modelled, no claim depends on them). -/
def jsonEscapeChar (c : Char) : String :=
  if c = '\\' then "\\\\" else if c = '"' then "\\\"" else String.singleton c

/-- A JSON string literal. -/
def jsonStrLit (s : String) : String :=
  "\"" ++ String.join (s.data.map jsonEscapeChar) ++ "\""

/-- Comma-join, as `JSON.stringify` places commas between members. -/
def joinComma : List String → String
  | [] => ""
  | [x] => x
  | x :: y :: rest => x ++ "," ++ joinComma (y :: rest)

/-- A JSON array of numbers. -/
def jsonNatList (l : List Nat) : String :=
  "[" ++ joinComma (l.map toString) ++ "]"

/-- A JSON array of format strings. -/
def jsonFmtList (l : List Fmt) : String :=
  "[" ++ joinComma (l.map (fun f => jsonStrLit f.str)) ++ "]"

/-- A JSON boolean. -/
def jsonBool (b : Bool) : String := if b then "true" else "false"

/-- One `"key":value` member; a key whose value is `undefined` is omitted
by `JSON.stringify`. -/
def fieldSeg (key : String) : Option String → List String
  | none => []
  | some j => ["\"" ++ key ++ "\":" ++ j]

/-- The members of the settings object, in the source's literal key order:
width, height, sizes, formats, suffix, quality, effort, stripMetadata,
withoutEnlargement. -/
def settingsSegs (o : ImgxOptions) : List String :=
  fieldSeg "width" (o.width.map toString) ++
  fieldSeg "height" (o.height.map toString) ++
  fieldSeg "sizes" (o.sizes.map jsonNatList) ++
  fieldSeg "formats" (o.formats.map jsonFmtList) ++
  fieldSeg "suffix" (o.suffix.map jsonStrLit) ++
  fieldSeg "quality" (o.quality.map toString) ++
  fieldSeg "effort" (o.effort.map toString) ++
  fieldSeg "stripMetadata" (o.stripMetadata.map jsonBool) ++
  fieldSeg "withoutEnlargement" (o.withoutEnlargement.map jsonBool)

/-- `generateSettingsHash`: the canonical JSON text of the nine
cache-relevant fields (standing for its SHA-1 digest, see above). -/
def generateSettingsHash (o : ImgxOptions) : String :=
  "\x7b" ++ joinComma (settingsSegs o) ++ "\x7d"

theorem joinComma_cons_ne (x : String) (l : List String) (h : l ≠ []) :
    joinComma (x :: l) = x ++ "," ++ joinComma l := by
  cases l with
  | nil => exact absurd rfl h
  | cons b bs => rfl

theorem length_pos_of_ne_empty (s : String) (h : s ≠ "") : 0 < s.length := by
  rcases s with ⟨d⟩
  cases d with
  | nil => exact absurd (by decide) h
  | cons c cs => simp [String.length_mk]

theorem joinComma_length_lt (A B : List String) (y : String) (hy : y ≠ "") :
    (joinComma (A ++ B)).length < (joinComma (A ++ y :: B)).length := by
  induction A with
  | nil =>
    cases B with
    | nil =>
      simpa [joinComma, String.length_empty] using length_pos_of_ne_empty y hy
    | cons b bs =>
      have h1 : joinComma (y :: b :: bs) = y ++ "," ++ joinComma (b :: bs) := rfl
      simp only [List.nil_append, h1, String.length_append]
      have := length_pos_of_ne_empty y hy
      omega
  | cons a A ih =>
    rcases hAB : A ++ B with _ | ⟨c, cs⟩
    · rcases List.append_eq_nil.mp hAB with ⟨rfl, rfl⟩
      have h1 : joinComma [a, y] = a ++ "," ++ joinComma [y] := rfl
      simp only [List.nil_append, List.append_nil, joinComma, h1,
        String.length_append]
      have := length_pos_of_ne_empty y hy
      omega
    · have h1 : joinComma (a :: (A ++ B)) = a ++ "," ++ joinComma (A ++ B) :=
        joinComma_cons_ne a (A ++ B) (by rw [hAB]; exact List.cons_ne_nil c cs)
      have h2 : joinComma (a :: (A ++ y :: B)) =
          a ++ "," ++ joinComma (A ++ y :: B) :=
        joinComma_cons_ne a (A ++ y :: B) (by
          intro hnil
          exact absurd (List.append_eq_nil.mp hnil).2 (List.cons_ne_nil y B))
      simp only [List.cons_append, h1, h2, String.length_append]
      have := ih
      omega

theorem joinComma_mid_ne (A B : List String) (x y : String) (hxy : x ≠ y) :
    joinComma (A ++ x :: B) ≠ joinComma (A ++ y :: B) := by
  induction A with
  | nil =>
    cases B with
    | nil => simpa [joinComma] using hxy
    | cons b bs =>
      have h1 : joinComma (x :: b :: bs) = x ++ "," ++ joinComma (b :: bs) := rfl
      have h2 : joinComma (y :: b :: bs) = y ++ "," ++ joinComma (b :: bs) := rfl
      simp only [List.nil_append, h1, h2]
      intro h
      apply hxy
      have hd := congrArg String.data h
      simp only [String.data_append, List.append_assoc] at hd
      exact String.ext (List.append_cancel_right hd)
  | cons a A ih =>
    have hne1 : A ++ x :: B ≠ [] := by
      intro hnil; exact absurd (List.append_eq_nil.mp hnil).2 (List.cons_ne_nil x B)
    have hne2 : A ++ y :: B ≠ [] := by
      intro hnil; exact absurd (List.append_eq_nil.mp hnil).2 (List.cons_ne_nil y B)
    have h1 : joinComma (a :: (A ++ x :: B)) = a ++ "," ++ joinComma (A ++ x :: B) :=
      joinComma_cons_ne a _ hne1
    have h2 : joinComma (a :: (A ++ y :: B)) = a ++ "," ++ joinComma (A ++ y :: B) :=
      joinComma_cons_ne a _ hne2
    simp only [List.cons_append, h1, h2]
    intro h
    apply ih
    have hd := congrArg String.data h
    simp only [String.data_append, List.append_assoc] at hd
    exact String.ext (List.append_cancel_left (List.append_cancel_left hd))

/-- Shape of a `fieldSeg` result: absent, or one nonempty member. -/
theorem fieldSeg_shape (key : String) (v : Option String) :
    fieldSeg key v = [] ∨ ∃ x, fieldSeg key v = [x] ∧ x ≠ "" := by
  cases v with
  | none => exact Or.inl rfl
  | some j =>
    refine Or.inr ⟨"\"" ++ key ++ "\":" ++ j, rfl, ?_⟩
    intro h
    have hl := congrArg String.length h
    simp only [String.length_append, String.length_empty] at hl
    have h1 : ("\"" : String).length = 1 := rfl
    omega

/-- Changing one member group of the settings object to a differently
serialized group changes the canonical JSON text. -/
theorem hash_ne_master (A B S T : List String)
    (hS : S = [] ∨ ∃ x, S = [x] ∧ x ≠ "")
    (hT : T = [] ∨ ∃ x, T = [x] ∧ x ≠ "")
    (hne : S ≠ T) :
    "\x7b" ++ joinComma (A ++ S ++ B) ++ "\x7d" ≠
      "\x7b" ++ joinComma (A ++ T ++ B) ++ "\x7d" := by
  intro h
  have h2 : joinComma (A ++ S ++ B) = joinComma (A ++ T ++ B) := by
    have hd := congrArg String.data h
    simp only [String.data_append] at hd
    exact String.ext (List.append_cancel_left (List.append_cancel_right hd))
  rcases hS with rfl | ⟨x, rfl, hx⟩ <;> rcases hT with rfl | ⟨y, rfl, hy⟩
  · exact hne rfl
  · have hlt := joinComma_length_lt A B y hy
    simp only [List.append_nil, List.append_assoc, List.singleton_append] at h2
    rw [h2] at hlt
    exact lt_irrefl _ hlt
  · have hlt := joinComma_length_lt A B x hx
    simp only [List.append_nil, List.append_assoc, List.singleton_append] at h2
    rw [h2] at hlt
    exact lt_irrefl _ hlt
  · have hxy : x ≠ y := fun he => hne (by rw [he])
    apply joinComma_mid_ne A B x y hxy
    simpa only [List.append_assoc, List.singleton_append] using h2

/-- Claim C3: the fingerprint depends on exactly the cache-relevant
fields. First conjunct: two option records that agree on the nine hashed
fields (hence differ only in concurrency, verbose, quiet, force, dryRun,
pattern, sharpCacheFiles, input, or output) have identical fingerprints.
Remaining conjuncts: changing quality, effort, the format list, sizes,
suffix, stripMetadata, or withoutEnlargement to a value with a different
canonical serialization changes the fingerprint. -/
theorem generateSettingsHash_sensitivity :
    (∀ o1 o2 : ImgxOptions,
      o1.width = o2.width → o1.height = o2.height → o1.sizes = o2.sizes →
      o1.formats = o2.formats → o1.suffix = o2.suffix →
      o1.quality = o2.quality → o1.effort = o2.effort →
      o1.stripMetadata = o2.stripMetadata →
      o1.withoutEnlargement = o2.withoutEnlargement →
      generateSettingsHash o1 = generateSettingsHash o2) ∧
    (∀ o1 o2 : ImgxOptions,
      o1.width = o2.width → o1.height = o2.height → o1.sizes = o2.sizes →
      o1.formats = o2.formats → o1.suffix = o2.suffix → o1.effort = o2.effort →
      o1.stripMetadata = o2.stripMetadata →
      o1.withoutEnlargement = o2.withoutEnlargement →
      fieldSeg "quality" (o1.quality.map toString) ≠
        fieldSeg "quality" (o2.quality.map toString) →
      generateSettingsHash o1 ≠ generateSettingsHash o2) ∧
    (∀ o1 o2 : ImgxOptions,
      o1.width = o2.width → o1.height = o2.height → o1.sizes = o2.sizes →
      o1.formats = o2.formats → o1.suffix = o2.suffix →
      o1.quality = o2.quality → o1.stripMetadata = o2.stripMetadata →
      o1.withoutEnlargement = o2.withoutEnlargement →
      fieldSeg "effort" (o1.effort.map toString) ≠
        fieldSeg "effort" (o2.effort.map toString) →
      generateSettingsHash o1 ≠ generateSettingsHash o2) ∧
    (∀ o1 o2 : ImgxOptions,
      o1.width = o2.width → o1.height = o2.height → o1.sizes = o2.sizes →
      o1.suffix = o2.suffix → o1.quality = o2.quality → o1.effort = o2.effort →
      o1.stripMetadata = o2.stripMetadata →
      o1.withoutEnlargement = o2.withoutEnlargement →
      fieldSeg "formats" (o1.formats.map jsonFmtList) ≠
        fieldSeg "formats" (o2.formats.map jsonFmtList) →
      generateSettingsHash o1 ≠ generateSettingsHash o2) ∧
    (∀ o1 o2 : ImgxOptions,
      o1.width = o2.width → o1.height = o2.height → o1.formats = o2.formats →
      o1.suffix = o2.suffix → o1.quality = o2.quality → o1.effort = o2.effort →
      o1.stripMetadata = o2.stripMetadata →
      o1.withoutEnlargement = o2.withoutEnlargement →
      fieldSeg "sizes" (o1.sizes.map jsonNatList) ≠
        fieldSeg "sizes" (o2.sizes.map jsonNatList) →
      generateSettingsHash o1 ≠ generateSettingsHash o2) ∧
    (∀ o1 o2 : ImgxOptions,
      o1.width = o2.width → o1.height = o2.height → o1.sizes = o2.sizes →
      o1.formats = o2.formats → o1.quality = o2.quality →
      o1.effort = o2.effort → o1.stripMetadata = o2.stripMetadata →
      o1.withoutEnlargement = o2.withoutEnlargement →
      fieldSeg "suffix" (o1.suffix.map jsonStrLit) ≠
        fieldSeg "suffix" (o2.suffix.map jsonStrLit) →
      generateSettingsHash o1 ≠ generateSettingsHash o2) ∧
    (∀ o1 o2 : ImgxOptions,
      o1.width = o2.width → o1.height = o2.height → o1.sizes = o2.sizes →
      o1.formats = o2.formats → o1.suffix = o2.suffix →
      o1.quality = o2.quality → o1.effort = o2.effort →
      o1.withoutEnlargement = o2.withoutEnlargement →
      fieldSeg "stripMetadata" (o1.stripMetadata.map jsonBool) ≠
        fieldSeg "stripMetadata" (o2.stripMetadata.map jsonBool) →
      generateSettingsHash o1 ≠ generateSettingsHash o2) ∧
    (∀ o1 o2 : ImgxOptions,
      o1.width = o2.width → o1.height = o2.height → o1.sizes = o2.sizes →
      o1.formats = o2.formats → o1.suffix = o2.suffix →
      o1.quality = o2.quality → o1.effort = o2.effort →
      o1.stripMetadata = o2.stripMetadata →
      fieldSeg "withoutEnlargement" (o1.withoutEnlargement.map jsonBool) ≠
        fieldSeg "withoutEnlargement" (o2.withoutEnlargement.map jsonBool) →
      generateSettingsHash o1 ≠ generateSettingsHash o2) := by
  refine ⟨?_, ?_, ?_, ?_, ?_, ?_, ?_, ?_⟩
  · intro o1 o2 h1 h2 h3 h4 h5 h6 h7 h8 h9
    unfold generateSettingsHash settingsSegs
    rw [h1, h2, h3, h4, h5, h6, h7, h8, h9]
  · intro o1 o2 h1 h2 h3 h4 h5 h7 h8 h9 hne
    have key := hash_ne_master
      (fieldSeg "width" (o2.width.map toString) ++
       fieldSeg "height" (o2.height.map toString) ++
       fieldSeg "sizes" (o2.sizes.map jsonNatList) ++
       fieldSeg "formats" (o2.formats.map jsonFmtList) ++
       fieldSeg "suffix" (o2.suffix.map jsonStrLit))
      (fieldSeg "effort" (o2.effort.map toString) ++
       fieldSeg "stripMetadata" (o2.stripMetadata.map jsonBool) ++
       fieldSeg "withoutEnlargement" (o2.withoutEnlargement.map jsonBool))
      (fieldSeg "quality" (o1.quality.map toString))
      (fieldSeg "quality" (o2.quality.map toString))
      (fieldSeg_shape _ _) (fieldSeg_shape _ _) hne
    unfold generateSettingsHash settingsSegs
    rw [h1, h2, h3, h4, h5, h7, h8, h9]
    simp only [List.append_assoc, List.append_nil] at key ⊢
    exact key
  · intro o1 o2 h1 h2 h3 h4 h5 h6 h8 h9 hne
    have key := hash_ne_master
      (fieldSeg "width" (o2.width.map toString) ++
       fieldSeg "height" (o2.height.map toString) ++
       fieldSeg "sizes" (o2.sizes.map jsonNatList) ++
       fieldSeg "formats" (o2.formats.map jsonFmtList) ++
       fieldSeg "suffix" (o2.suffix.map jsonStrLit) ++
       fieldSeg "quality" (o2.quality.map toString))
      (fieldSeg "stripMetadata" (o2.stripMetadata.map jsonBool) ++
       fieldSeg "withoutEnlargement" (o2.withoutEnlargement.map jsonBool))
      (fieldSeg "effort" (o1.effort.map toString))
      (fieldSeg "effort" (o2.effort.map toString))
      (fieldSeg_shape _ _) (fieldSeg_shape _ _) hne
    unfold generateSettingsHash settingsSegs
    rw [h1, h2, h3, h4, h5, h6, h8, h9]
    simp only [List.append_assoc, List.append_nil] at key ⊢
    exact key
  · intro o1 o2 h1 h2 h3 h5 h6 h7 h8 h9 hne
    have key := hash_ne_master
      (fieldSeg "width" (o2.width.map toString) ++
       fieldSeg "height" (o2.height.map toString) ++
       fieldSeg "sizes" (o2.sizes.map jsonNatList))
      (fieldSeg "suffix" (o2.suffix.map jsonStrLit) ++
       fieldSeg "quality" (o2.quality.map toString) ++
       fieldSeg "effort" (o2.effort.map toString) ++
       fieldSeg "stripMetadata" (o2.stripMetadata.map jsonBool) ++
       fieldSeg "withoutEnlargement" (o2.withoutEnlargement.map jsonBool))
      (fieldSeg "formats" (o1.formats.map jsonFmtList))
      (fieldSeg "formats" (o2.formats.map jsonFmtList))
      (fieldSeg_shape _ _) (fieldSeg_shape _ _) hne
    unfold generateSettingsHash settingsSegs
    rw [h1, h2, h3, h5, h6, h7, h8, h9]
    simp only [List.append_assoc, List.append_nil] at key ⊢
    exact key
  · intro o1 o2 h1 h2 h4 h5 h6 h7 h8 h9 hne
    have key := hash_ne_master
      (fieldSeg "width" (o2.width.map toString) ++
       fieldSeg "height" (o2.height.map toString))
      (fieldSeg "formats" (o2.formats.map jsonFmtList) ++
       fieldSeg "suffix" (o2.suffix.map jsonStrLit) ++
       fieldSeg "quality" (o2.quality.map toString) ++
       fieldSeg "effort" (o2.effort.map toString) ++
       fieldSeg "stripMetadata" (o2.stripMetadata.map jsonBool) ++
       fieldSeg "withoutEnlargement" (o2.withoutEnlargement.map jsonBool))
      (fieldSeg "sizes" (o1.sizes.map jsonNatList))
      (fieldSeg "sizes" (o2.sizes.map jsonNatList))
      (fieldSeg_shape _ _) (fieldSeg_shape _ _) hne
    unfold generateSettingsHash settingsSegs
    rw [h1, h2, h4, h5, h6, h7, h8, h9]
    simp only [List.append_assoc, List.append_nil] at key ⊢
    exact key
  · intro o1 o2 h1 h2 h3 h4 h6 h7 h8 h9 hne
    have key := hash_ne_master
      (fieldSeg "width" (o2.width.map toString) ++
       fieldSeg "height" (o2.height.map toString) ++
       fieldSeg "sizes" (o2.sizes.map jsonNatList) ++
       fieldSeg "formats" (o2.formats.map jsonFmtList))
      (fieldSeg "quality" (o2.quality.map toString) ++
       fieldSeg "effort" (o2.effort.map toString) ++
       fieldSeg "stripMetadata" (o2.stripMetadata.map jsonBool) ++
       fieldSeg "withoutEnlargement" (o2.withoutEnlargement.map jsonBool))
      (fieldSeg "suffix" (o1.suffix.map jsonStrLit))
      (fieldSeg "suffix" (o2.suffix.map jsonStrLit))
      (fieldSeg_shape _ _) (fieldSeg_shape _ _) hne
    unfold generateSettingsHash settingsSegs
    rw [h1, h2, h3, h4, h6, h7, h8, h9]
    simp only [List.append_assoc, List.append_nil] at key ⊢
    exact key
  · intro o1 o2 h1 h2 h3 h4 h5 h6 h7 h9 hne
    have key := hash_ne_master
      (fieldSeg "width" (o2.width.map toString) ++
       fieldSeg "height" (o2.height.map toString) ++
       fieldSeg "sizes" (o2.sizes.map jsonNatList) ++
       fieldSeg "formats" (o2.formats.map jsonFmtList) ++
       fieldSeg "suffix" (o2.suffix.map jsonStrLit) ++
       fieldSeg "quality" (o2.quality.map toString) ++
       fieldSeg "effort" (o2.effort.map toString))
      (fieldSeg "withoutEnlargement" (o2.withoutEnlargement.map jsonBool))
      (fieldSeg "stripMetadata" (o1.stripMetadata.map jsonBool))
      (fieldSeg "stripMetadata" (o2.stripMetadata.map jsonBool))
      (fieldSeg_shape _ _) (fieldSeg_shape _ _) hne
    unfold generateSettingsHash settingsSegs
    rw [h1, h2, h3, h4, h5, h6, h7, h9]
    simp only [List.append_assoc, List.append_nil] at key ⊢
    exact key
  · intro o1 o2 h1 h2 h3 h4 h5 h6 h7 h8 hne
    have key := hash_ne_master
      (fieldSeg "width" (o2.width.map toString) ++
       fieldSeg "height" (o2.height.map toString) ++
       fieldSeg "sizes" (o2.sizes.map jsonNatList) ++
       fieldSeg "formats" (o2.formats.map jsonFmtList) ++
       fieldSeg "suffix" (o2.suffix.map jsonStrLit) ++
       fieldSeg "quality" (o2.quality.map toString) ++
       fieldSeg "effort" (o2.effort.map toString) ++
       fieldSeg "stripMetadata" (o2.stripMetadata.map jsonBool))
      ([] : List String)
      (fieldSeg "withoutEnlargement" (o1.withoutEnlargement.map jsonBool))
      (fieldSeg "withoutEnlargement" (o2.withoutEnlargement.map jsonBool))
      (fieldSeg_shape _ _) (fieldSeg_shape _ _) hne
    unfold generateSettingsHash settingsSegs
    rw [h1, h2, h3, h4, h5, h6, h7, h8]
    simp only [List.append_assoc, List.append_nil] at key ⊢
    exact key

/-- A small concrete world used by the skip-decision witnesses. -/
def skipWitWorld : World :=
  { globFiles := [],
    fsFiles := fun p =>
      if p = "a.jpg" then some ⟨5, 3, none⟩
      else if p = "out/a-100w.webp" then some ⟨10, 4, none⟩
      else none,
    dirExists := fun _ => false,
    codecFn := fun _ _ _ => Except.error "unused",
    mkdirFail := fun _ => none,
    storedCache := none,
    relative := fun _ p => p,
    cwd := "",
    now := 0 }

/-- A cache holding a fresh record for the witness input. -/
def skipWitCache : Cache :=
  [("a.jpg", { inputPath := "a.jpg", inputMtime := 5, settingsHash := "h",
               outputFiles := ["out/a-100w.webp"], timestamp := 0 })]

/-- Witness for claim C1 at a concrete world. -/
theorem shouldSkipFile_skips_when_outputs_newer_witness :
    shouldSkipFile skipWitWorld "a.jpg" ["out/a-100w.webp"] "h" false
      skipWitCache = ⟨true, some "cached (up to date)"⟩ :=
  (shouldSkipFile_skips_when_outputs_newer skipWitWorld "a.jpg"
    ["out/a-100w.webp"] "h" skipWitCache 5 10 (by decide) (by decide)
    (by decide) (by decide)).trans (by decide)

/-- Witness for claim C2 at a concrete world (force set). -/
theorem shouldSkipFile_never_skips_when_stale_witness :
    (shouldSkipFile skipWitWorld "a.jpg" ["out/a-100w.webp"] "h" true
      skipWitCache).skip = false :=
  shouldSkipFile_never_skips_when_stale skipWitWorld "a.jpg"
    ["out/a-100w.webp"] "h" true skipWitCache (Or.inl rfl)

/-- Two option records differing only in quality. -/
def hashWitA : ImgxOptions := { input := "in", output := "out", quality := some 78 }

/-- Like `hashWitA` with a different quality. -/
def hashWitB : ImgxOptions := { input := "in", output := "out", quality := some 80 }

/-- Witness for claim C3: a concrete quality change flips the fingerprint. -/
theorem generateSettingsHash_sensitivity_witness :
    generateSettingsHash hashWitA ≠ generateSettingsHash hashWitB :=
  generateSettingsHash_sensitivity.2.1 hashWitA hashWitB rfl rfl rfl rfl rfl
    rfl rfl rfl (by decide)

/-! ## The imgx pipeline (src/index.ts lines 318-605) -/

/-- `rel.replace(/\.[^.]+$/, "")`: drop a trailing dot-extension (the dot
followed by one or more non-dot characters at the end), if present. -/
def stripExt (s : String) : String :=
  let r := s.data.reverse
  let run := r.takeWhile (fun c => c ≠ '.')
  match r.drop run.length with
  | '.' :: rest => if run.isEmpty then s else String.mk rest.reverse
  | _ => s

/-- `path.join` for the separator-free common case used by the pipeline. -/
def pathJoin (a b : String) : String := a ++ "/" ++ b

/-- `path.dirname`: everything before the final slash, "." when there is
no slash. -/
def dirname (s : String) : String :=
  let r := s.data.reverse
  let run := r.takeWhile (fun c => c ≠ '/')
  match r.drop run.length with
  | '/' :: rest => String.mk rest.reverse
  | _ => "."

/-- `path.extname(f).slice(1)`: the final extension without its dot; empty
when there is none (no dot in the basename, trailing dot, or a leading-dot
basename). -/
def extSlice (s : String) : String :=
  let r := s.data.reverse
  let run := r.takeWhile (fun c => c ≠ '.' && c ≠ '/')
  match r.drop run.length with
  | '.' :: rest =>
    if run.isEmpty then ""
    else
      match rest with
      | [] => ""
      | '/' :: _ => ""
      | _ => String.mk run.reverse
  | _ => ""

/-- Digits-to-number, as `parseInt` on a digit-only capture. -/
def parseDigits (l : List Char) : Nat :=
  l.foldl (fun acc c => acc * 10 + (c.toNat - 48)) 0

/-- First match of the regex dash, digits capture, "w", dot (the
`sizeMatch` pattern of lines 419 and 769), scanning left to right. The
digit run is maximal; digits and the literal "w" are disjoint, so no
backtracking can succeed where the maximal run fails. -/
def sizeMatchW : List Char → Option Nat
  | [] => none
  | '-' :: rest =>
    let ds := rest.takeWhile Char.isDigit
    if ds.isEmpty then sizeMatchW rest
    else
      match rest.drop ds.length with
      | 'w' :: '.' :: _ => some (parseDigits ds)
      | _ => sizeMatchW rest
  | _ :: rest => sizeMatchW rest

/-- Split a character list at the first occurrence of a pattern:
characters before the match and characters after it. -/
def splitFirst (pat : List Char) : List Char → Option (List Char × List Char)
  | [] => none
  | c :: rest =>
    if pat.isPrefixOf (c :: rest) then some ([], (c :: rest).drop pat.length)
    else
      match splitFirst pat rest with
      | some (pre, post) => some (c :: pre, post)
      | none => none

/-- JS `String.replace` with a string pattern: replace only the first
occurrence. -/
def replaceFirst (s pat rep : String) : String :=
  match splitFirst pat.data s.data with
  | some (pre, post) => String.mk (pre ++ rep.data ++ post)
  | none => s

/-- `.replace(/\\/g, "/")`. -/
def backslashToSlash (s : String) : String :=
  String.mk (s.data.map (fun c => if c = '\\' then '/' else c))

/-- `error.message || "Unknown error"`. -/
def errReason (msg : String) : String :=
  if msg = "" then "Unknown error" else msg

/-- The model message for a throwing `fs.stat` (the code only forwards
`error.message`, so a fixed ENOENT-style text suffices). -/
def statFailMsg (p : String) : String :=
  "ENOENT: no such file or directory, stat " ++ p

/-- A write-effect trace entry. Directory creation and the cache/manifest
persistence are what the dry-run claims are about; `codecInvoke` records a
sharp transform being started. Pure reads (stat, metadata) are not
effects. -/
inductive Effect
  | mkdir (dir : String)
  | codecInvoke (input : String) (size : Nat) (fmt : Fmt)
  | writeFile (p : String)
  | writeCache (p : String)
  | writeManifest (p : String)
deriving DecidableEq, Repr

/-- The destructured-with-defaults option values the run actually uses
(lines 319-338). `sizes || [width]` keeps an explicitly empty list, since
an empty JS array is truthy. -/
structure Env where
  input : String
  output : String
  sizesToProcess : List Nat
  formats : List Fmt
  suffix : String
  settingsHash : String
  force : Bool
  dryRun : Bool

/-- Resolve the option record to its effective values. -/
def mkEnv (o : ImgxOptions) : Env :=
  { input := o.input,
    output := o.output,
    sizesToProcess :=
      match o.sizes with
      | some l => l
      | none => [o.width.getD 1000],
    formats := o.formats.getD [Fmt.webp],
    suffix := o.suffix.getD "\x7bw\x7dw",
    settingsHash := generateSettingsHash o,
    force := o.force.getD false,
    dryRun := o.dryRun.getD false }

/-- One output path: `outBase-suffixWithSize.fmt` (lines 388-390). -/
def outPathOf (env : Env) (outBase : String) (size : Nat) (fmt : Fmt) : String :=
  outBase ++ "-" ++ replaceFirst env.suffix "\x7bw\x7d" (toString size)
    ++ "." ++ fmt.str

/-- All expected output paths, sizes outer, formats inner (lines 387-393). -/
def allOutputsOf (env : Env) (outBase : String) : List String :=
  env.sizesToProcess.flatMap (fun size =>
    env.formats.map (fun fmt => outPathOf env outBase size fmt))

/-- One manifest entry as it appears in the pipeline's manifest map. -/
structure ManifestEntry where
  src : String
  width : Nat
  height : Nat
  format : String
  bytes : Nat
  originalFile : String
deriving DecidableEq, Repr

/-- The entry rebuilt from an existing cached output file (lines 414-431). -/
def reconEntry (w : World) (outputRoot rel f : String) (fi : FileInfo)
    (meta : Nat × Nat) : ManifestEntry :=
  { src := backslashToSlash (w.relative outputRoot f),
    width :=
      match sizeMatchW f.data with
      | some n => n
      | none => meta.1,
    height := meta.2,
    format := extSlice f,
    bytes := fi.byteSize,
    originalFile := rel }

/-- The reconstruction loop over a cache record's output list: build an
entry per readable output, `break` (dropping the rest) at the first output
whose stat or metadata read throws (lines 413-436). -/
def reconstructEntries (w : World) (outputRoot rel : String) :
    List String → List ManifestEntry
  | [] => []
  | f :: rest =>
    match w.fsFiles f with
    | none => []
    | some fi =>
      match fi.imageMeta with
      | none => []
      | some meta =>
        reconEntry w outputRoot rel f fi meta ::
          reconstructEntries w outputRoot rel rest

/-- Accumulator of the per-size/per-format processing loop. -/
structure ProcState where
  entries : List ManifestEntry
  effects : List Effect
deriving DecidableEq, Repr

/-- The processing loop body (lines 451-510): per (size, format) pair,
`mkdir -p` the parent (throws per the world), then — unless dry-run —
invoke the codec, write the buffer, and collect the manifest entry built
from the produced buffer's metadata (`metadata.width || size`,
`metadata.height || 0`). An error carries the effects already performed. -/
def processPairs (w : World) (env : Env) (abs rel outBase : String) :
    List (Nat × Fmt) → ProcState → Except (List Effect × String) ProcState
  | [], st => .ok st
  | (size, fmt) :: rest, st =>
    let outPath := outPathOf env outBase size fmt
    let outDir := dirname outPath
    match w.mkdirFail outDir with
    | some msg => .error (st.effects, msg)
    | none =>
      let st1 : ProcState := ⟨st.entries, st.effects ++ [Effect.mkdir outDir]⟩
      if env.dryRun then processPairs w env abs rel outBase rest st1
      else
        let effs2 := st1.effects ++ [Effect.codecInvoke abs size fmt]
        match codec w abs size fmt with
        | .error msg => .error (effs2, msg)
        | .ok outd =>
          let entry : ManifestEntry :=
            { src := backslashToSlash (w.relative env.output outPath),
              width := if outd.width = 0 then size else outd.width,
              height := outd.height,
              format := fmt.str,
              bytes := outd.bytes,
              originalFile := rel }
          processPairs w env abs rel outBase rest
            ⟨st1.entries ++ [entry], effs2 ++ [Effect.writeFile outPath]⟩

/-- One `results.push` record (`{ in: rel, out: allOutputs }`). -/
structure FileOut where
  inFile : String
  out : List String
deriving DecidableEq, Repr

/-- Everything one per-file task contributes to the run's shared state:
its pushes onto results / skippedFiles / cachedFiles, its manifest
assignment, its cache record update, and its effect trace. -/
structure TaskResult where
  resPush : Option FileOut := none
  skipPush : Option (String × String) := none
  cachePush : Option (String × String) := none
  manifestPush : Option (String × List ManifestEntry) := none
  cacheUpd : Option (String × CacheEntry) := none
  effects : List Effect := []
deriving DecidableEq, Repr

/-- One per-file task (lines 377-567). The skip branch records the file as
cached, reconstructs manifest entries from the cache record if one exists,
and still pushes onto results and the manifest. The processing branch runs
`processPairs`; on success it pushes results/manifest and then — unless
dry-run — re-stats the input for the cache record, a stat that can itself
throw after the pushes already happened (lines 512-526). Any throw lands
in the catch that pushes onto skippedFiles with `error.message`. -/
def runTask (w : World) (env : Env) (cache : Cache) (abs : String) :
    TaskResult :=
  let rel := w.relative env.input abs
  let outBase := pathJoin env.output (stripExt rel)
  let allOutputs := allOutputsOf env outBase
  let sk := shouldSkipFile w abs allOutputs env.settingsHash env.force cache
  if sk.skip then
    let cacheKey := w.relative w.cwd abs
    let entries :=
      match lookupA cache cacheKey with
      | some e => reconstructEntries w env.output rel e.outputFiles
      | none => []
    { resPush := some ⟨rel, allOutputs⟩,
      cachePush := some (rel, sk.reason.getD "cached"),
      manifestPush := some (rel, entries) }
  else
    let pairs := env.sizesToProcess.flatMap (fun s =>
      env.formats.map (fun f => (s, f)))
    match processPairs w env abs rel outBase pairs ⟨[], []⟩ with
    | .error (effs, msg) =>
      { skipPush := some (rel, errReason msg), effects := effs }
    | .ok st =>
      if env.dryRun then
        { resPush := some ⟨rel, allOutputs⟩,
          manifestPush := some (rel, st.entries),
          effects := st.effects }
      else
        match w.fsFiles abs with
        | none =>
          { resPush := some ⟨rel, allOutputs⟩,
            manifestPush := some (rel, st.entries),
            skipPush := some (rel, errReason (statFailMsg abs)),
            effects := st.effects }
        | some fi =>
          { resPush := some ⟨rel, allOutputs⟩,
            manifestPush := some (rel, st.entries),
            cacheUpd := some (w.relative w.cwd abs,
              { inputPath := abs, inputMtime := fi.mtimeMs,
                settingsHash := env.settingsHash,
                outputFiles := allOutputs, timestamp := w.now }),
            effects := st.effects }

/-- Apply a task's cache-record update to the shared in-memory cache. -/
def applyCacheUpd (cache : Cache) (t : TaskResult) : Cache :=
  match t.cacheUpd with
  | some (k, v) => setA cache k v
  | none => cache

/-- Run the per-file tasks over the enumerated list, threading the shared
in-memory cache. The p-limit pool is modelled by sequential execution in
enumeration order; every property proved below is insensitive to task
interleaving (tasks interact only through cache keys). -/
def runTasks (w : World) (env : Env) : Cache → List String → List TaskResult
  | _, [] => []
  | cache, abs :: rest =>
    let t := runTask w env cache abs
    t :: runTasks w env (applyCacheUpd cache t) rest

/-- The cache state after a list of tasks has run. -/
def cacheAfter (w : World) (env : Env) : Cache → List String → Cache
  | cache, [] => cache
  | cache, abs :: rest =>
    cacheAfter w env (applyCacheUpd cache (runTask w env cache abs)) rest

/-- The manifest object accumulated over the tasks (`manifest[rel] = ...`). -/
def manifestOf (ts : List TaskResult) : List (String × List ManifestEntry) :=
  ts.foldl (fun m t =>
    match t.manifestPush with
    | some (k, v) => setA m k v
    | none => m) []

/-- The `ImgxResult` value returned by `imgx`. -/
structure ImgxResult where
  processed : Nat
  files : List FileOut
  skipped : List (String × String)
  cached : List (String × String)
  totalFound : Nat
  manifest : Option (List (String × List ManifestEntry))
deriving DecidableEq, Repr

/-- The whole pipeline (lines 318-605): enumerate, early-return on zero
matches (before any cache I/O), load the cache, run all tasks, then — for
a non-dry run — persist the cache and, when the manifest object has at
least one key, the manifest file. Returns the result record plus the
ordered trace of write effects. -/
def imgxRun (w : World) (o : ImgxOptions) : ImgxResult × List Effect :=
  let env := mkEnv o
  if w.globFiles.isEmpty then
    ({ processed := 0, files := [], skipped := [], cached := [],
       totalFound := 0, manifest := none }, [])
  else
    let cache0 := w.storedCache.getD []
    let ts := runTasks w env cache0 w.globFiles
    let results := ts.filterMap (fun t => t.resPush)
    let skipped := ts.filterMap (fun t => t.skipPush)
    let cached := ts.filterMap (fun t => t.cachePush)
    let manifest := manifestOf ts
    let effects0 := ts.flatMap (fun t => t.effects)
    let effects1 :=
      if env.dryRun then effects0
      else effects0 ++ [Effect.writeCache (pathJoin env.output ".imgx-cache.json")]
    let effects2 :=
      if !manifest.isEmpty && !env.dryRun then
        effects1 ++ [Effect.writeManifest (pathJoin env.output "imgx-manifest.json")]
      else effects1
    ({ processed := results.length, files := results, skipped := skipped,
       cached := cached, totalFound := w.globFiles.length,
       manifest := if manifest.isEmpty then none else some manifest },
     effects2)

/-- Concrete `path.relative` used by the counterexample worlds: strips a
directory base from a path beneath it, and is the identity from the root
working directory. -/
def relFn (base p : String) : String :=
  if base = "" then p
  else if (base.data ++ ['/']).isPrefixOf p.data then
    String.mk (p.data.drop (base.data.length + 1))
  else p

/-- One input, one up-to-date output on disk, no cache record: the skip
decision fires with the filesystem-based reason. -/
def cxWorld : World :=
  { globFiles := ["in/a.jpg"],
    fsFiles := fun p =>
      if p = "in/a.jpg" then some ⟨5, 3, none⟩
      else if p = "out/a-1000w.webp" then some ⟨10, 4, some (1000, 500)⟩
      else none,
    dirExists := fun _ => false,
    codecFn := fun _ _ _ => Except.error "unused",
    mkdirFail := fun _ => none,
    storedCache := none,
    relative := relFn,
    cwd := "",
    now := 7 }

/-- Default options over `cxWorld`. -/
def cxOpts : ImgxOptions := { input := "in", output := "out" }

/-- Counterexample to claim C6: in a non-dry run whose only input is
cache-skipped without a cache record, no input produces any manifest
entry, yet the manifest file is written — the write condition counts
manifest keys, and a skip records a key with an empty entry list. -/
theorem manifest_written_with_zero_entries_counterexample :
    (mkEnv cxOpts).dryRun = false ∧
    Effect.writeManifest "out/imgx-manifest.json" ∈ (imgxRun cxWorld cxOpts).2 ∧
    (imgxRun cxWorld cxOpts).1.manifest = some [("a.jpg", [])] := by
  decide

/-- Counterexample to claim C7: the sole input is skip-decided as cached
(it is in `cached`, nothing failed), yet `processed` is 1, not 0 — the
skip branch also pushes onto `results` and `processed` is
`results.length`. -/
theorem cached_counted_in_processed_counterexample :
    (imgxRun cxWorld cxOpts).1.processed = 1 ∧
    (imgxRun cxWorld cxOpts).1.cached = [("a.jpg", "output newer than input")] ∧
    (imgxRun cxWorld cxOpts).1.skipped = [] ∧
    (imgxRun cxWorld cxOpts).1.totalFound = 1 := by
  decide

/-- The cache record of `c5World`: two outputs, only the first readable. -/
def c5CacheEntry : CacheEntry :=
  { inputPath := "in/a.jpg", inputMtime := 5, settingsHash := "old",
    outputFiles := ["out/a-100w.webp", "out/a-200w.webp"], timestamp := 0 }

/-- One input, skip-decided, with a cache record listing two outputs of
which only the first is readable. -/
def c5World : World :=
  { globFiles := ["in/a.jpg"],
    fsFiles := fun p =>
      if p = "in/a.jpg" then some ⟨5, 3, none⟩
      else if p = "out/a-100w.webp" then some ⟨10, 7, some (100, 50)⟩
      else none,
    dirExists := fun _ => false,
    codecFn := fun _ _ _ => Except.error "unused",
    mkdirFail := fun _ => none,
    storedCache := some [("in/a.jpg", c5CacheEntry)],
    relative := relFn,
    cwd := "",
    now := 7 }

/-- Options over `c5World` (a single 100px size). -/
def c5Opts : ImgxOptions := { input := "in", output := "out", sizes := some [100] }

/-- Counterexample to claim C5: the second cached output cannot be read,
yet the input is recorded with a partial manifest entry list (the one
output read before the failure) — not with no entries at all. -/
theorem skip_reconstruction_partial_counterexample :
    c5World.fsFiles "out/a-200w.webp" = none ∧
    (imgxRun c5World c5Opts).1.cached.length = 1 ∧
    (imgxRun c5World c5Opts).1.manifest =
      some [("a.jpg",
        [{ src := "a-100w.webp", width := 100, height := 50,
           format := "webp", bytes := 7, originalFile := "a.jpg" }])] := by
  decide

/-- One enumerated input that cannot be statted, with an empty sizes list
(an empty JS array is truthy, so `sizes || [width]` keeps it). -/
def c10World : World :=
  { globFiles := ["in/a.jpg"],
    fsFiles := fun _ => none,
    dirExists := fun _ => false,
    codecFn := fun _ _ _ => Except.error "unused",
    mkdirFail := fun _ => none,
    storedCache := none,
    relative := relFn,
    cwd := "",
    now := 0 }

/-- Options over `c10World`: `sizes: []` empties the per-input work set. -/
def c10Opts : ImgxOptions := { input := "in", output := "out", sizes := some [] }

/-- Counterexample to claim C10: with an empty (size, format) work set the
task pushes onto `results`, and the cache-update stat then throws, pushing
the same input onto `skippedFiles` too — the input is accounted twice and
`files.length + skipped.length` exceeds `totalFound`. -/
theorem accounting_double_count_counterexample :
    (imgxRun c10World c10Opts).1.totalFound = 1 ∧
    (imgxRun c10World c10Opts).1.files.length +
        (imgxRun c10World c10Opts).1.skipped.length ≠ 1 ∧
    (imgxRun c10World c10Opts).1.files.map FileOut.inFile = ["a.jpg"] ∧
    (imgxRun c10World c10Opts).1.skipped.map Prod.fst = ["a.jpg"] := by
  decide

/-- One input in a subdirectory, no outputs on disk, dry-run requested. -/
def c4World : World :=
  { globFiles := ["in/sub/a.jpg"],
    fsFiles := fun p => if p = "in/sub/a.jpg" then some ⟨5, 3, none⟩ else none,
    dirExists := fun _ => false,
    codecFn := fun _ _ _ => Except.error "unused",
    mkdirFail := fun _ => none,
    storedCache := none,
    relative := relFn,
    cwd := "",
    now := 0 }

/-- Dry-run options over `c4World`. -/
def c4Opts : ImgxOptions := { input := "in", output := "out", dryRun := some true }

/-- Counterexample to claim C4: a dry run still creates output directories
(`fs.mkdir` runs before the dry-run check, line 457), so the filesystem
under the output root is changed: here the nonexistent directory "out/sub"
is created. -/
theorem dryRun_creates_output_dirs_counterexample :
    c4Opts.dryRun = some true ∧
    (imgxRun c4World c4Opts).2 = [Effect.mkdir "out/sub"] ∧
    c4World.dirExists "out/sub" = false := by
  decide

/-- The effect trace of a processing-loop outcome, error or success. -/
def procEffects : Except (List Effect × String) ProcState → List Effect
  | .ok st => st.effects
  | .error (effs, _) => effs

/-- In a dry run the processing loop only ever creates directories. -/
theorem processPairs_dry_mkdir (w : World) (env : Env)
    (abs rel outBase : String) (hdry : env.dryRun = true) :
    ∀ (pairs : List (Nat × Fmt)) (st : ProcState),
      (∀ e ∈ st.effects, ∃ d, e = Effect.mkdir d) →
      ∀ e ∈ procEffects (processPairs w env abs rel outBase pairs st),
        ∃ d, e = Effect.mkdir d := by
  intro pairs
  induction pairs with
  | nil =>
    intro st hst e he
    exact hst e he
  | cons p rest ih =>
    intro st hst e he
    rcases p with ⟨size, fmt⟩
    simp only [processPairs] at he
    rcases hmk : w.mkdirFail (dirname (outPathOf env outBase size fmt)) with _ | msg
    · rw [hmk, hdry] at he
      simp only [if_true] at he
      refine ih _ ?_ e he
      intro e2 he2
      rcases List.mem_append.mp he2 with h | h
      · exact hst e2 h
      · simp only [List.mem_singleton] at h
        exact ⟨_, h⟩
    · rw [hmk] at he
      exact hst e he

/-- Every effect a single task emits was emitted by its processing loop. -/
theorem runTask_effects_procEffects (w : World) (env : Env) (cache : Cache)
    (abs : String) :
    (runTask w env cache abs).effects = [] ∨
    ∃ pairs, (runTask w env cache abs).effects =
      procEffects (processPairs w env abs (w.relative env.input abs)
        (pathJoin env.output (stripExt (w.relative env.input abs))) pairs
        ⟨[], []⟩) := by
  simp only [runTask]
  split
  · exact Or.inl rfl
  · refine Or.inr ⟨env.sizesToProcess.flatMap (fun s =>
      env.formats.map (fun f => (s, f))), ?_⟩
    rcases hp : processPairs w env abs (w.relative env.input abs)
        (pathJoin env.output (stripExt (w.relative env.input abs)))
        (env.sizesToProcess.flatMap (fun s => env.formats.map (fun f => (s, f))))
        ⟨[], []⟩ with ⟨effs, msg⟩ | st
    · rfl
    · rcases env.dryRun with _ | _
      · rcases w.fsFiles abs with _ | fi <;> rfl
      · rfl

/-- A dry-run task emits only directory creations. -/
theorem runTask_dry_mkdir (w : World) (env : Env) (cache : Cache)
    (abs : String) (hdry : env.dryRun = true) :
    ∀ e ∈ (runTask w env cache abs).effects, ∃ d, e = Effect.mkdir d := by
  intro e he
  rcases runTask_effects_procEffects w env cache abs with h0 | ⟨pairs, hp⟩
  · rw [h0] at he
    exact absurd he (List.not_mem_nil e)
  · rw [hp] at he
    exact processPairs_dry_mkdir w env abs _ _ hdry pairs ⟨[], []⟩
      (by intro e2 he2; exact absurd he2 (List.not_mem_nil e2)) e he

/-- All tasks of a dry run emit only directory creations. -/
theorem runTasks_dry_mkdir (w : World) (env : Env) (hdry : env.dryRun = true) :
    ∀ (files : List String) (cache : Cache) (t : TaskResult),
      t ∈ runTasks w env cache files →
      ∀ e ∈ t.effects, ∃ d, e = Effect.mkdir d := by
  intro files
  induction files with
  | nil =>
    intro cache t ht
    exact absurd ht (List.not_mem_nil t)
  | cons a rest ih =>
    intro cache t ht
    rcases List.mem_cons.mp ht with h | h
    · subst h
      exact runTask_dry_mkdir w env cache a hdry
    · exact ih _ t h

/-- Claim C4 (amended): a dry run executes the full skip-decision and
path computation but writes no output file, invokes no codec
transformation, and persists neither the cache nor the manifest file — its
whole effect trace consists of directory creations (`fs.mkdir` runs before
the dry-run check, so output directories are still created). -/
theorem dryRun_emits_only_mkdir_effects (w : World) (o : ImgxOptions)
    (hdry : (mkEnv o).dryRun = true) :
    ∀ e ∈ (imgxRun w o).2, ∃ d, e = Effect.mkdir d := by
  intro e he
  simp only [imgxRun] at he
  split at he
  · exact absurd he (List.not_mem_nil e)
  · rw [hdry] at he
    simp only [Bool.not_true, Bool.and_false, Bool.false_eq_true, if_false,
      if_true] at he
    rcases List.mem_flatMap.mp he with ⟨t, ht, hte⟩
    exact runTasks_dry_mkdir w (mkEnv o) hdry w.globFiles
      (w.storedCache.getD []) t ht e hte

/-- Witness for the amended claim C4: applied to the concrete dry-run
world, whose one emitted effect is the directory creation. -/
theorem dryRun_emits_only_mkdir_effects_witness :
    ∃ d, Effect.mkdir "out/sub" = Effect.mkdir d :=
  dryRun_emits_only_mkdir_effects c4World c4Opts (by decide)
    (Effect.mkdir "out/sub") (by decide)

/-- Whether a cached output file can be re-read during reconstruction:
its stat succeeds and sharp can read its image metadata. -/
def imageReadable (w : World) (f : String) : Bool :=
  match w.fsFiles f with
  | none => false
  | some fi => fi.imageMeta.isSome

/-- Claim C5 (amended): when a skip-decided input's manifest entries are
reconstructed from its cache record, the loop stops at the first output it
cannot read, and the input is recorded with exactly the entries of the
readable outputs before that failure (possibly a partial, nonempty list) —
outputs from the failure onward contribute nothing. First conjunct: the
reconstruction of a list with a readable front and an unreadable element
keeps exactly the front's entries, one per readable output. Second
conjunct: the skip branch records those reconstructed entries as the
input's manifest assignment. -/
theorem skip_reconstruction_keeps_readable_front :
    (∀ (w : World) (root rel : String) (pre post : List String) (f : String),
      (∀ g ∈ pre, imageReadable w g = true) → imageReadable w f = false →
      reconstructEntries w root rel (pre ++ f :: post) =
        reconstructEntries w root rel pre ∧
      (reconstructEntries w root rel pre).length = pre.length) ∧
    (∀ (w : World) (env : Env) (cache : Cache) (abs : String) (e : CacheEntry),
      (shouldSkipFile w abs
        (allOutputsOf env (pathJoin env.output
          (stripExt (w.relative env.input abs))))
        env.settingsHash env.force cache).skip = true →
      lookupA cache (w.relative w.cwd abs) = some e →
      (runTask w env cache abs).manifestPush =
        some (w.relative env.input abs,
          reconstructEntries w env.output (w.relative env.input abs)
            e.outputFiles)) := by
  constructor
  · intro w root rel pre
    induction pre with
    | nil =>
      intro post f _ hf
      simp only [List.nil_append]
      refine ⟨?_, rfl⟩
      unfold imageReadable at hf
      rcases hff : w.fsFiles f with _ | fi
      · simp only [reconstructEntries, hff]
      · rcases hm : fi.imageMeta with _ | m
        · simp only [reconstructEntries, hff, hm]
        · rw [hff] at hf
          simp [hm] at hf
    | cons g pre ih =>
      intro post f hpre hf
      have hg : imageReadable w g = true := hpre g (List.mem_cons_self g pre)
      unfold imageReadable at hg
      rcases hgf : w.fsFiles g with _ | fi
      · simp [hgf] at hg
      · rcases hm : fi.imageMeta with _ | m
        · rw [hgf] at hg
          simp [hm] at hg
        · have ihr := ih post f
            (fun x hx => hpre x (List.mem_cons_of_mem g hx)) hf
          constructor
          · simp only [List.cons_append, reconstructEntries, hgf, hm]
            exact congrArg (fun l => reconEntry w root rel g fi m :: l) ihr.1
          · simp only [reconstructEntries, hgf, hm, List.length_cons, ihr.2]
  · intro w env cache abs e hskip hentry
    simp only [runTask]
    rw [hskip]
    simp only [if_true, hentry]

/-- Witness for the amended claim C5 at the concrete partially-readable
cache record. -/
theorem skip_reconstruction_keeps_readable_front_witness :
    (runTask c5World (mkEnv c5Opts) (c5World.storedCache.getD [])
      "in/a.jpg").manifestPush =
      some (c5World.relative (mkEnv c5Opts).input "in/a.jpg",
        reconstructEntries c5World (mkEnv c5Opts).output
          (c5World.relative (mkEnv c5Opts).input "in/a.jpg")
          c5CacheEntry.outputFiles) :=
  skip_reconstruction_keeps_readable_front.2 c5World (mkEnv c5Opts)
    (c5World.storedCache.getD []) "in/a.jpg" c5CacheEntry (by decide) (by decide)

/-- Persistence effects: the cache-file and manifest-file writes that only
the pipeline tail may emit. -/
def persistEffect : Effect → Bool
  | .writeCache _ => true
  | .writeManifest _ => true
  | _ => false

theorem forall_mem_append_single {P : Effect → Prop} (l : List Effect)
    (x : Effect) (hl : ∀ e ∈ l, P e) (hx : P x) : ∀ e ∈ l ++ [x], P e := by
  intro e he
  rcases List.mem_append.mp he with h | h
  · exact hl e h
  · simp only [List.mem_singleton] at h
    subst h
    exact hx

/-- The processing loop never emits a persistence effect. -/
theorem processPairs_no_persist (w : World) (env : Env)
    (abs rel outBase : String) :
    ∀ (pairs : List (Nat × Fmt)) (st : ProcState),
      (∀ e ∈ st.effects, persistEffect e = false) →
      ∀ e ∈ procEffects (processPairs w env abs rel outBase pairs st),
        persistEffect e = false := by
  intro pairs
  induction pairs with
  | nil =>
    intro st hst e he
    exact hst e he
  | cons p rest ih =>
    intro st hst e he
    rcases p with ⟨size, fmt⟩
    simp only [processPairs] at he
    rcases hmk : w.mkdirFail (dirname (outPathOf env outBase size fmt))
        with _ | msg
    · rw [hmk] at he
      have hst1 := forall_mem_append_single st.effects
        (Effect.mkdir (dirname (outPathOf env outBase size fmt))) hst rfl
      rcases hd : env.dryRun with _ | _
      · rw [hd] at he
        simp only [Bool.false_eq_true, if_false] at he
        have hst2 := forall_mem_append_single _
          (Effect.codecInvoke abs size fmt) hst1 rfl
        rcases hc : codec w abs size fmt with msg2 | outd
        · rw [hc] at he
          exact hst2 e he
        · rw [hc] at he
          exact ih _ (forall_mem_append_single _
            (Effect.writeFile (outPathOf env outBase size fmt)) hst2 rfl) e he
      · rw [hd] at he
        simp only [if_true] at he
        exact ih _ hst1 e he
    · rw [hmk] at he
      exact hst e he

/-- A task never emits a persistence effect. -/
theorem runTask_no_persist (w : World) (env : Env) (cache : Cache)
    (abs : String) :
    ∀ e ∈ (runTask w env cache abs).effects, persistEffect e = false := by
  intro e he
  rcases runTask_effects_procEffects w env cache abs with h0 | ⟨pairs, hp⟩
  · rw [h0] at he
    exact absurd he (List.not_mem_nil e)
  · rw [hp] at he
    exact processPairs_no_persist w env abs _ _ pairs ⟨[], []⟩
      (by intro e2 he2; exact absurd he2 (List.not_mem_nil e2)) e he

/-- No task of a run emits a persistence effect. -/
theorem runTasks_no_persist (w : World) (env : Env) :
    ∀ (files : List String) (cache : Cache) (t : TaskResult),
      t ∈ runTasks w env cache files →
      ∀ e ∈ t.effects, persistEffect e = false := by
  intro files
  induction files with
  | nil =>
    intro cache t ht
    exact absurd ht (List.not_mem_nil t)
  | cons a rest ih =>
    intro cache t ht
    rcases List.mem_cons.mp ht with h | h
    · subst h
      exact runTask_no_persist w env cache a
    · exact ih _ t h

/-- Claim C6 (amended): at the end of a non-dry run, the manifest file is
written if and only if at least one input was recorded in the manifest
object — i.e. completed the skip or processing branch — even when every
recorded entry list is empty; equivalently, exactly when the returned
manifest field is present. The returned manifest, when present, has at
least one key (so the field is absent exactly when no input was
recorded). -/
theorem manifest_written_iff_some_input_recorded (w : World) (o : ImgxOptions)
    (hdry : (mkEnv o).dryRun = false) :
    ((∃ p, Effect.writeManifest p ∈ (imgxRun w o).2) ↔
      (imgxRun w o).1.manifest ≠ none) ∧
    (∀ m, (imgxRun w o).1.manifest = some m → m ≠ []) := by
  simp only [imgxRun]
  split
  · refine ⟨⟨?_, ?_⟩, ?_⟩
    · rintro ⟨p, hp⟩
      exact absurd hp (List.not_mem_nil _)
    · intro h
      exact absurd rfl h
    · intro m hm
      cases hm
  · simp only [hdry, Bool.not_false, Bool.and_true, Bool.false_eq_true,
      if_false]
    rcases hman : (manifestOf (runTasks w (mkEnv o) (w.storedCache.getD [])
        w.globFiles)).isEmpty with _ | _
    · simp only [Bool.not_false, if_true, Bool.false_eq_true, if_false]
      refine ⟨⟨?_, ?_⟩, ?_⟩
      · intro _
        simp
      · intro _
        exact ⟨pathJoin (mkEnv o).output "imgx-manifest.json",
          List.mem_append.mpr (Or.inr (List.mem_singleton_self _))⟩
      · intro m hm hnil
        have hm2 : manifestOf (runTasks w (mkEnv o) (w.storedCache.getD [])
            w.globFiles) = m := by
          injection hm
        rw [hm2, hnil] at hman
        cases hman
    · simp only [Bool.not_true, Bool.false_eq_true, if_false, if_true]
      refine ⟨⟨?_, ?_⟩, ?_⟩
      · rintro ⟨p, hp⟩
        rcases List.mem_append.mp hp with h | h
        · rcases List.mem_flatMap.mp h with ⟨t, ht, hte⟩
          have := runTasks_no_persist w (mkEnv o) w.globFiles
            (w.storedCache.getD []) t ht _ hte
          simp [persistEffect] at this
        · simp only [List.mem_singleton] at h
          cases h
      · intro h
        exact absurd rfl h
      · intro m hm
        cases hm

/-- Witness for the amended claim C6: the concrete world writes a manifest
and indeed returns one. -/
theorem manifest_written_iff_some_input_recorded_witness :
    (imgxRun cxWorld cxOpts).1.manifest ≠ none :=
  (manifest_written_iff_some_input_recorded cxWorld cxOpts (by decide)).1.mp
    ⟨"out/imgx-manifest.json", by decide⟩

/-- A task that pushes onto cachedFiles (the skip branch) also pushes onto
results. -/
theorem runTask_cachePush_imp_resPush (w : World) (env : Env) (cache : Cache)
    (abs : String) :
    (runTask w env cache abs).cachePush.isSome = true →
    (runTask w env cache abs).resPush.isSome = true := by
  simp only [runTask]
  split
  · intro _
    rfl
  · rcases hp : processPairs w env abs (w.relative env.input abs)
        (pathJoin env.output (stripExt (w.relative env.input abs)))
        (env.sizesToProcess.flatMap (fun s => env.formats.map (fun f => (s, f))))
        ⟨[], []⟩ with ⟨effs, msg⟩ | st
    · intro h
      simp at h
    · rcases env.dryRun with _ | _
      · rcases w.fsFiles abs with _ | fi <;> exact fun _ => rfl
      · exact fun _ => rfl

/-- All tasks of a run: a cachedFiles push implies a results push. -/
theorem runTasks_cachePush_imp_resPush (w : World) (env : Env) :
    ∀ (files : List String) (cache : Cache) (t : TaskResult),
      t ∈ runTasks w env cache files →
      t.cachePush.isSome = true → t.resPush.isSome = true := by
  intro files
  induction files with
  | nil =>
    intro cache t ht
    exact absurd ht (List.not_mem_nil t)
  | cons a rest ih =>
    intro cache t ht
    rcases List.mem_cons.mp ht with h | h
    · subst h
      exact runTask_cachePush_imp_resPush w env cache a
    · exact ih _ t h

/-- Claim C7 (amended): the result's three lists are exactly the tasks'
pushes — `cached` the skip-branch pushes with their skip reason, `skipped`
the catch-branch pushes with the thrown message (recorded verbatim, with
"Unknown error" for an empty message) — but `processed` counts every
entry of `files`, and a cache-skipped input also pushes onto `files`: an
input skip-decided as cached IS counted in processed. -/
theorem result_categories_amended (w : World) (o : ImgxOptions) :
    (imgxRun w o).1.processed = (imgxRun w o).1.files.length ∧
    (imgxRun w o).1.files =
      (runTasks w (mkEnv o) (w.storedCache.getD []) w.globFiles).filterMap
        (fun t => t.resPush) ∧
    (imgxRun w o).1.cached =
      (runTasks w (mkEnv o) (w.storedCache.getD []) w.globFiles).filterMap
        (fun t => t.cachePush) ∧
    (imgxRun w o).1.skipped =
      (runTasks w (mkEnv o) (w.storedCache.getD []) w.globFiles).filterMap
        (fun t => t.skipPush) ∧
    (∀ t ∈ runTasks w (mkEnv o) (w.storedCache.getD []) w.globFiles,
      t.cachePush.isSome = true → t.resPush.isSome = true) := by
  refine ⟨?_, ?_, ?_, ?_, ?_⟩
  · simp only [imgxRun]
    split <;> rfl
  · simp only [imgxRun]
    split
    · rename_i hemp
      rw [List.isEmpty_iff.mp hemp]
      rfl
    · rfl
  · simp only [imgxRun]
    split
    · rename_i hemp
      rw [List.isEmpty_iff.mp hemp]
      rfl
    · rfl
  · simp only [imgxRun]
    split
    · rename_i hemp
      rw [List.isEmpty_iff.mp hemp]
      rfl
    · rfl
  · exact runTasks_cachePush_imp_resPush w (mkEnv o) w.globFiles
      (w.storedCache.getD [])

/-- Witness for the amended claim C7 at the concrete cache-skip world. -/
theorem result_categories_amended_witness :
    (imgxRun cxWorld cxOpts).1.processed =
      (imgxRun cxWorld cxOpts).1.files.length :=
  (result_categories_amended cxWorld cxOpts).1

/-- Tasks that throw nothing contribute nothing to skippedFiles. -/
theorem filterMap_skipPush_nil (l : List TaskResult)
    (h : ∀ t ∈ l, t.skipPush = none) :
    l.filterMap (fun t => t.skipPush) = [] := by
  induction l with
  | nil => rfl
  | cons a rest ih =>
    simp only [List.filterMap_cons, h a (List.mem_cons_self a rest)]
    exact ih (fun t ht => h t (List.mem_cons_of_mem a ht))

/-- A task that landed in the catch (skippedFiles push) never updates the
cache record for its input. -/
theorem runTask_skipPush_cacheUpd_none (w : World) (env : Env) (cache : Cache)
    (abs : String) :
    (runTask w env cache abs).skipPush.isSome = true →
    (runTask w env cache abs).cacheUpd = none := by
  simp only [runTask]
  split
  · intro h
    simp at h
  · rcases hp : processPairs w env abs (w.relative env.input abs)
        (pathJoin env.output (stripExt (w.relative env.input abs)))
        (env.sizesToProcess.flatMap (fun s => env.formats.map (fun f => (s, f))))
        ⟨[], []⟩ with ⟨effs, msg⟩ | st
    · exact fun _ => rfl
    · rcases env.dryRun with _ | _
      · rcases w.fsFiles abs with _ | fi
        · exact fun _ => rfl
        · intro h
          simp at h
      · intro h
        simp at h

/-- Splitting the task list: the tasks of `A ++ B` are the tasks of `A`
followed by the tasks of `B` started from the cache state `A` left
behind. -/
theorem runTasks_append (w : World) (env : Env) :
    ∀ (A B : List String) (cache : Cache),
      runTasks w env cache (A ++ B) =
        runTasks w env cache A ++
          runTasks w env (cacheAfter w env cache A) B := by
  intro A
  induction A with
  | nil =>
    intro B cache
    rfl
  | cons a rest ih =>
    intro B cache
    simp only [List.cons_append, runTasks, cacheAfter]
    exact congrArg (runTask w env cache a :: ·)
      (ih B (applyCacheUpd cache (runTask w env cache a)))

/-- Claim C8: when the files split as `A ++ k :: B`, the task of input `k`
throws (its skippedFiles push is `(relk, msg)`), and every other task
completes without throwing, then the run's `skipped` list is exactly that
one entry, and the sibling tasks are untouched by `k`: the run's task list
is the `A` tasks, then `k`'s task, then the `B` tasks computed from the
same cache state they would see in a run without `k` (conjunctions two and
three exhibit both runs' task lists sharing the sibling tasks
verbatim). -/
theorem failure_isolated_per_input (w : World) (o : ImgxOptions)
    (A B : List String) (k relk msg : String)
    (hfiles : w.globFiles = A ++ k :: B)
    (hk : (runTask w (mkEnv o)
        (cacheAfter w (mkEnv o) (w.storedCache.getD []) A) k).skipPush =
        some (relk, msg))
    (hA : ∀ t ∈ runTasks w (mkEnv o) (w.storedCache.getD []) A,
        t.skipPush = none)
    (hB : ∀ t ∈ runTasks w (mkEnv o)
        (cacheAfter w (mkEnv o) (w.storedCache.getD []) A) B,
        t.skipPush = none) :
    (imgxRun w o).1.skipped = [(relk, msg)] ∧
    runTasks w (mkEnv o) (w.storedCache.getD []) (A ++ k :: B) =
      runTasks w (mkEnv o) (w.storedCache.getD []) A ++
        runTask w (mkEnv o) (cacheAfter w (mkEnv o) (w.storedCache.getD []) A) k ::
        runTasks w (mkEnv o) (cacheAfter w (mkEnv o) (w.storedCache.getD []) A) B ∧
    runTasks w (mkEnv o) (w.storedCache.getD []) (A ++ B) =
      runTasks w (mkEnv o) (w.storedCache.getD []) A ++
        runTasks w (mkEnv o) (cacheAfter w (mkEnv o) (w.storedCache.getD []) A) B := by
  have hupd : applyCacheUpd (cacheAfter w (mkEnv o) (w.storedCache.getD []) A)
      (runTask w (mkEnv o) (cacheAfter w (mkEnv o) (w.storedCache.getD []) A) k) =
      cacheAfter w (mkEnv o) (w.storedCache.getD []) A := by
    have hnone := runTask_skipPush_cacheUpd_none w (mkEnv o)
      (cacheAfter w (mkEnv o) (w.storedCache.getD []) A) k (by rw [hk]; rfl)
    simp [applyCacheUpd, hnone]
  have hmain : runTasks w (mkEnv o) (w.storedCache.getD []) (A ++ k :: B) =
      runTasks w (mkEnv o) (w.storedCache.getD []) A ++
        runTask w (mkEnv o) (cacheAfter w (mkEnv o) (w.storedCache.getD []) A) k ::
        runTasks w (mkEnv o) (cacheAfter w (mkEnv o) (w.storedCache.getD []) A) B := by
    rw [runTasks_append]
    simp only [runTasks]
    rw [hupd]
  refine ⟨?_, hmain, runTasks_append w (mkEnv o) A B (w.storedCache.getD [])⟩
  have hne : w.globFiles.isEmpty = false := by
    rw [hfiles]
    cases A <;> rfl
  simp only [imgxRun]
  split
  · rename_i hemp
    rw [hne] at hemp
    cases hemp
  · rw [hfiles, hmain]
    show List.filterMap (fun t => t.skipPush)
        (runTasks w (mkEnv o) (w.storedCache.getD []) A ++
          runTask w (mkEnv o) (cacheAfter w (mkEnv o) (w.storedCache.getD []) A) k ::
          runTasks w (mkEnv o) (cacheAfter w (mkEnv o) (w.storedCache.getD []) A) B) =
      [(relk, msg)]
    rw [List.filterMap_append, filterMap_skipPush_nil _ hA]
    simp only [List.filterMap_cons, hk, List.nil_append]
    rw [filterMap_skipPush_nil _ hB]

/-- Two inputs; the second one's codec invocation throws "bad image". -/
def c8World : World :=
  { globFiles := ["in/a.jpg", "in/b.jpg"],
    fsFiles := fun p =>
      if p = "in/a.jpg" then some ⟨5, 3, none⟩
      else if p = "in/b.jpg" then some ⟨6, 9, none⟩
      else none,
    dirExists := fun _ => false,
    codecFn := fun p _ _ =>
      if p = "in/b.jpg" then Except.error "bad image"
      else Except.ok ⟨800, 600, 42⟩,
    mkdirFail := fun _ => none,
    storedCache := none,
    relative := relFn,
    cwd := "",
    now := 3 }

/-- Default options over `c8World`. -/
def c8Opts : ImgxOptions := { input := "in", output := "out" }

/-- Witness for claim C8: with the second of two inputs failing in the
codec, the run's skipped list is exactly that one entry with the thrown
message. -/
theorem failure_isolated_per_input_witness :
    (imgxRun c8World c8Opts).1.skipped = [("b.jpg", "bad image")] :=
  (failure_isolated_per_input c8World c8Opts ["in/a.jpg"] [] "in/b.jpg"
    "b.jpg" "bad image" rfl (by decide) (by decide) (by decide)).1

/-- Modelled from the spec: the WorkScheduler of section 4.4. The
bounded-concurrency executor the pipeline uses (`pLimit(concurrency)` at
line 352, one task per file at lines 375-377) is the external p-limit
dependency, whose source is not part of this repository, so the scheduler
is modelled from the spec's contract: one task per WorkItem, at most
`limit` tasks in flight at any time, tasks settle independently, and the
pool is drained when nothing is waiting or running. A state counts the
tasks not yet started, in flight, and settled. -/
structure SchedState where
  waiting : Nat
  running : Nat
  done : Nat
deriving DecidableEq, Repr

/-- Modelled from the spec: the scheduler's transitions. A waiting task
may start only while fewer than `limit` tasks run; a running task may
settle (succeed or fail). -/
inductive SchedStep (limit : Nat) : SchedState → SchedState → Prop
  | start (s : SchedState) (hw : 0 < s.waiting) (hr : s.running < limit) :
      SchedStep limit s ⟨s.waiting - 1, s.running + 1, s.done⟩
  | settle (s : SchedState) (hr : 0 < s.running) :
      SchedStep limit s ⟨s.waiting, s.running - 1, s.done + 1⟩

/-- The states a pool of `n` tasks can reach under concurrency `limit`. -/
def SchedReachable (limit n : Nat) (s : SchedState) : Prop :=
  Relation.ReflTransGen (SchedStep limit) ⟨n, 0, 0⟩ s

/-- Claim C9: in every reachable state of a run over `n` per-file tasks
with concurrency limit `limit`, at most `limit` tasks (and hence codec
invocations) are in flight, no task is lost or duplicated, and the state
in which the scheduler returns (nothing waiting, nothing running) has all
`n` tasks settled. -/
theorem scheduler_bound_and_settlement (limit n : Nat) (s : SchedState)
    (h : SchedReachable limit n s) :
    s.running ≤ limit ∧ s.waiting + s.running + s.done = n ∧
    (s.waiting = 0 → s.running = 0 → s.done = n) := by
  induction h with
  | refl =>
    refine ⟨Nat.zero_le limit, by simp, ?_⟩
    intro h0 _
    dsimp only at h0 ⊢
    omega
  | tail hreach hstep ih =>
    rcases ih with ⟨ihr, ihsum, _⟩
    cases hstep with
    | start hw hr =>
      refine ⟨?_, ?_, ?_⟩ <;> dsimp only <;> omega
    | settle hr =>
      refine ⟨?_, ?_, ?_⟩ <;> dsimp only <;> omega

/-- Witness for claim C9: a concrete reachable state of a two-task pool
with limit one, one task in flight. -/
theorem scheduler_bound_and_settlement_witness :
    (⟨1, 1, 0⟩ : SchedState).running ≤ 1 ∧
    (⟨1, 1, 0⟩ : SchedState).waiting + (⟨1, 1, 0⟩ : SchedState).running +
      (⟨1, 1, 0⟩ : SchedState).done = 2 ∧
    ((⟨1, 1, 0⟩ : SchedState).waiting = 0 →
      (⟨1, 1, 0⟩ : SchedState).running = 0 →
      (⟨1, 1, 0⟩ : SchedState).done = 2) :=
  scheduler_bound_and_settlement 1 2 ⟨1, 1, 0⟩
    (Relation.ReflTransGen.single
      (SchedStep.start ⟨2, 0, 0⟩ (by decide) (by decide)))

/-- Every task pushes onto results or onto skippedFiles (or, in the corner
the counterexample exhibits, both). -/
theorem runTask_accounted (w : World) (env : Env) (cache : Cache)
    (abs : String) :
    (runTask w env cache abs).resPush.isSome = true ∨
    (runTask w env cache abs).skipPush.isSome = true := by
  simp only [runTask]
  split
  · exact Or.inl rfl
  · rcases hp : processPairs w env abs (w.relative env.input abs)
        (pathJoin env.output (stripExt (w.relative env.input abs)))
        (env.sizesToProcess.flatMap (fun s => env.formats.map (fun f => (s, f))))
        ⟨[], []⟩ with ⟨effs, msg⟩ | st
    · exact Or.inr rfl
    · rcases env.dryRun with _ | _
      · rcases w.fsFiles abs with _ | fi
        · exact Or.inl rfl
        · exact Or.inl rfl
      · exact Or.inl rfl

/-- A successful processing loop over a nonempty pair list in a non-dry
run implies the input file exists (the very first codec invocation throws
otherwise). -/
theorem processPairs_ok_fsFiles (w : World) (env : Env)
    (abs rel outBase : String) (size : Nat) (fmt : Fmt)
    (pairs : List (Nat × Fmt)) (st st2 : ProcState)
    (hdry : env.dryRun = false)
    (hok : processPairs w env abs rel outBase ((size, fmt) :: pairs) st =
      .ok st2) :
    w.fsFiles abs ≠ none := by
  intro hnone
  simp only [processPairs] at hok
  rcases hmk : w.mkdirFail (dirname (outPathOf env outBase size fmt))
      with _ | msg
  · rw [hmk, hdry] at hok
    simp only [Bool.false_eq_true, if_false] at hok
    rw [show codec w abs size fmt =
        Except.error ("Input file is missing: " ++ abs) from by
      simp [codec, hnone]] at hok
    simp at hok
  · rw [hmk] at hok
    simp at hok

/-- Without the counterexample's corner — a dry run, or a nonempty
(size, format) work set — a task pushes onto exactly one of results and
skippedFiles. -/
theorem runTask_exactly_once (w : World) (env : Env) (cache : Cache)
    (abs : String)
    (h : env.dryRun = true ∨ (env.sizesToProcess ≠ [] ∧ env.formats ≠ [])) :
    ((runTask w env cache abs).resPush.isSome = true ∧
      (runTask w env cache abs).skipPush = none) ∨
    ((runTask w env cache abs).resPush = none ∧
      (runTask w env cache abs).skipPush.isSome = true) := by
  simp only [runTask]
  split
  · exact Or.inl ⟨rfl, rfl⟩
  · rcases hp : processPairs w env abs (w.relative env.input abs)
        (pathJoin env.output (stripExt (w.relative env.input abs)))
        (env.sizesToProcess.flatMap (fun s => env.formats.map (fun f => (s, f))))
        ⟨[], []⟩ with ⟨effs, msg⟩ | st
    · exact Or.inr ⟨rfl, rfl⟩
    · rcases hd : env.dryRun with _ | _
      · rcases h with h1 | ⟨hs, hf⟩
        · rw [hd] at h1
          cases h1
        · rcases hsz : env.sizesToProcess with _ | ⟨s0, srest⟩
          · exact absurd hsz hs
          · rcases hfm : env.formats with _ | ⟨f0, frest⟩
            · exact absurd hfm hf
            · rw [hsz, hfm] at hp
              simp only [List.flatMap_cons, List.map_cons,
                List.cons_append] at hp
              have hsome := processPairs_ok_fsFiles w env abs
                (w.relative env.input abs)
                (pathJoin env.output (stripExt (w.relative env.input abs)))
                s0 f0 _ ⟨[], []⟩ st hd hp
              rcases hff : w.fsFiles abs with _ | fi
              · exact absurd hff hsome
              · exact Or.inl ⟨rfl, rfl⟩
      · exact Or.inl ⟨rfl, rfl⟩

/-- List lift of `runTask_accounted`. -/
theorem runTasks_accounted (w : World) (env : Env) :
    ∀ (files : List String) (cache : Cache) (t : TaskResult),
      t ∈ runTasks w env cache files →
      t.resPush.isSome = true ∨ t.skipPush.isSome = true := by
  intro files
  induction files with
  | nil =>
    intro cache t ht
    exact absurd ht (List.not_mem_nil t)
  | cons a rest ih =>
    intro cache t ht
    rcases List.mem_cons.mp ht with h | h
    · subst h
      exact runTask_accounted w env cache a
    · exact ih _ t h

/-- List lift of `runTask_exactly_once`. -/
theorem runTasks_exactly_once (w : World) (env : Env)
    (h : env.dryRun = true ∨ (env.sizesToProcess ≠ [] ∧ env.formats ≠ [])) :
    ∀ (files : List String) (cache : Cache) (t : TaskResult),
      t ∈ runTasks w env cache files →
      (t.resPush.isSome = true ∧ t.skipPush = none) ∨
      (t.resPush = none ∧ t.skipPush.isSome = true) := by
  intro files
  induction files with
  | nil =>
    intro cache t ht
    exact absurd ht (List.not_mem_nil t)
  | cons a rest ih =>
    intro cache t ht
    rcases List.mem_cons.mp ht with hh | hh
    · subst hh
      exact runTask_exactly_once w env cache a h
    · exact ih _ t hh

/-- Exactly-once contributions make the two filtered lists partition the
task list. -/
theorem filterMap_length_xor {α β γ : Type} (f : α → Option β)
    (g : α → Option γ) :
    ∀ l : List α,
      (∀ t ∈ l, ((f t).isSome = true ∧ g t = none) ∨
        (f t = none ∧ (g t).isSome = true)) →
      (l.filterMap f).length + (l.filterMap g).length = l.length := by
  intro l
  induction l with
  | nil =>
    intro _
    rfl
  | cons a rest ih =>
    intro h
    have ha := h a (List.mem_cons_self a rest)
    have hrest := ih (fun t ht => h t (List.mem_cons_of_mem a ht))
    rcases ha with ⟨h1, h2⟩ | ⟨h1, h2⟩
    · rcases hfa : f a with _ | b
      · rw [hfa] at h1
        cases h1
      · simp only [List.filterMap_cons, hfa, h2, List.length_cons]
        omega
    · rcases hga : g a with _ | c
      · rw [hga] at h2
        cases h2
      · simp only [List.filterMap_cons, h1, hga, List.length_cons]
        omega

/-- A pointwise presence implication bounds one filtered list by the
other. -/
theorem filterMap_length_mono {α β γ : Type} (f : α → Option β)
    (g : α → Option γ) :
    ∀ l : List α, (∀ t ∈ l, (g t).isSome = true → (f t).isSome = true) →
      (l.filterMap g).length ≤ (l.filterMap f).length := by
  intro l
  induction l with
  | nil =>
    intro _
    exact Nat.le_refl 0
  | cons a rest ih =>
    intro h
    have hrest := ih (fun t ht hs => h t (List.mem_cons_of_mem a ht) hs)
    rcases hga : g a with _ | c
    · rcases hfa : f a with _ | b
      · simp only [List.filterMap_cons, hga, hfa]
        exact hrest
      · simp only [List.filterMap_cons, hga, hfa, List.length_cons]
        omega
    · have hf := h a (List.mem_cons_self a rest) (by rw [hga]; rfl)
      rcases hfb : f a with _ | b
      · rw [hfb] at hf
        cases hf
      · simp only [List.filterMap_cons, hga, hfb, List.length_cons]
        omega

/-- One task per enumerated file. -/
theorem runTasks_length (w : World) (env : Env) :
    ∀ (files : List String) (cache : Cache),
      (runTasks w env cache files).length = files.length := by
  intro files
  induction files with
  | nil =>
    intro cache
    rfl
  | cons a rest ih =>
    intro cache
    simp only [runTasks, List.length_cons, ih]

/-- Claim C10 (amended): every enumerated file is accounted for at least
once — its task pushes onto `files` or onto `skipped` — and `cached` never
exceeds `files`; and whenever the run is a dry run or the per-input
(size, format) work set is nonempty (ruling out the counterexample's
corner, where an empty work set meets an unstattable input), every file is
accounted for exactly once, never both and never neither, so
`files.length + skipped.length = totalFound`. -/
theorem accounting_amended (w : World) (o : ImgxOptions) :
    (∀ t ∈ runTasks w (mkEnv o) (w.storedCache.getD []) w.globFiles,
      t.resPush.isSome = true ∨ t.skipPush.isSome = true) ∧
    (imgxRun w o).1.cached.length ≤ (imgxRun w o).1.files.length ∧
    ((mkEnv o).dryRun = true ∨
        ((mkEnv o).sizesToProcess ≠ [] ∧ (mkEnv o).formats ≠ []) →
      (∀ t ∈ runTasks w (mkEnv o) (w.storedCache.getD []) w.globFiles,
        (t.resPush.isSome = true ∧ t.skipPush = none) ∨
        (t.resPush = none ∧ t.skipPush.isSome = true)) ∧
      (imgxRun w o).1.files.length + (imgxRun w o).1.skipped.length =
        (imgxRun w o).1.totalFound) := by
  refine ⟨?_, ?_, ?_⟩
  · exact runTasks_accounted w (mkEnv o) w.globFiles (w.storedCache.getD [])
  · simp only [imgxRun]
    split
    · exact Nat.le_refl 0
    · exact filterMap_length_mono (fun t => t.resPush) (fun t => t.cachePush)
        (runTasks w (mkEnv o) (w.storedCache.getD []) w.globFiles)
        (runTasks_cachePush_imp_resPush w (mkEnv o) w.globFiles
          (w.storedCache.getD []))
  · intro h
    refine ⟨runTasks_exactly_once w (mkEnv o) h w.globFiles
      (w.storedCache.getD []), ?_⟩
    simp only [imgxRun]
    split
    · rfl
    · rw [filterMap_length_xor (fun t => t.resPush) (fun t => t.skipPush)
        (runTasks w (mkEnv o) (w.storedCache.getD []) w.globFiles)
        (runTasks_exactly_once w (mkEnv o) h w.globFiles
          (w.storedCache.getD []))]
      exact runTasks_length w (mkEnv o) w.globFiles (w.storedCache.getD [])

/-- Witness for the amended claim C10 at the concrete cache-skip world
(nonempty work set: the default size and format). -/
theorem accounting_amended_witness :
    (imgxRun cxWorld cxOpts).1.files.length +
      (imgxRun cxWorld cxOpts).1.skipped.length =
      (imgxRun cxWorld cxOpts).1.totalFound :=
  ((accounting_amended cxWorld cxOpts).2.2
    (Or.inr ⟨by decide, by decide⟩)).2
